import Mathlib

/-!
Verification of `lib/dknn_attack_linf.py` (`DKNNLinfAttack`), a gradient-based
attack on a Deep k-Nearest-Neighbor classifier.

The definitions below are a shallow embedding of the source file: rationals
stand for the float tensor entries, lists for batches, explicit state records
for the tensors mutated in place, and `Option` for operations that can raise.
Real-valued functions (`tanh`, `log`, `sqrt`) are embedded over `ℝ`.
-/

namespace DknnLinf

/-- `INFTY = 1e20`, the sentinel constant from the top of
`dknn_attack_linf.py`. -/
def INFTY : ℚ := 10 ^ 20

/-! ## The outer binary-search loop, per sample

`DKNNLinfAttack.__call__` keeps, for every sample `i`, the scalars
`lower_bound[i]`, `upper_bound[i]`, `const[i]` and the buffer row `x_adv[i]`,
and updates them at the end of every binary-search round (lines 186-203).
The update for sample `i` reads only that sample's data, so we embed it as a
per-sample step function driven by the round's observable outcome. -/

/-- Per-sample state mutated by the outer binary-search loop:
`lower_bound[i]`, `upper_bound[i]`, `const[i]` and `x_adv[i]`. -/
structure BsState (α : Type) where
  lower : ℚ
  upper : ℚ
  const : ℚ
  xAdv  : α
deriving DecidableEq

/-- One round's observable outcome for sample `i`: the `l2dist[i]` produced by
the final inner iteration, the `is_adv[i]` flag computed by `check_adv`, and
the candidate row `x[i]`. -/
structure Round (α : Type) where
  l2d   : ℚ
  isAdv : Bool
  cand  : α
deriving DecidableEq

/-- Lines 186-203 of `dknn_attack_linf.py` for one sample: first the bound
update (`lower_bound[i] = const[i]` when `l2dist[i] > 0`, otherwise
`upper_bound[i] = const[i]` plus the conditional overwrite of `x_adv[i]`),
then the choice of the next `const[i]`, reading the just-updated bounds. -/
def bsStep {α : Type} (st : BsState α) (r : Round α) : BsState α :=
  let st1 :=
    if 0 < r.l2d then
      { st with lower := st.const }
    else
      { st with upper := st.const,
                xAdv := if r.isAdv then r.cand else st.xAdv }
  let c :=
    if st1.upper = INFTY then st1.const * 10
    else if st1.lower = 0 then st1.const / 10
    else (st1.lower + st1.upper) / 2
  { st1 with const := c }

/-- Lines 114-118 (`const = initial_const`, `lower_bound = 0`,
`upper_bound = INFTY`) together with line 78 (`x_adv = x_orig.clone()`),
restricted to one sample. -/
def bsInit {α : Type} (c0 : ℚ) (x0 : α) : BsState α := ⟨0, INFTY, c0, x0⟩

/-- The outer loop of `__call__` (lines 145-211) restricted to one sample,
driven by the list of per-round outcomes. -/
def bsRun {α : Type} (c0 : ℚ) (x0 : α) (rounds : List (Round α)) : BsState α :=
  rounds.foldl bsStep (bsInit c0 x0)

/-- **C1.** In every outer binary-search round, each sample's state is updated
exactly as the spec describes: if `l2dist[i] > 0` the lower bound is raised to
`const[i]`; otherwise the upper bound is lowered to `const[i]` and, when the
success check reports a misclassification, `x_adv[i]` is overwritten with the
candidate; then the next `const[i]` is `const[i]*10` if the updated upper
bound is still the sentinel, `const[i]/10` if the updated lower bound is still
0, and the bounds' midpoint otherwise.  Consequently `x_adv[i]` is only ever
overwritten by a candidate confirmed adversarial at the time of
replacement. -/
theorem c1_per_round_update {α : Type} (st : BsState α) (r : Round α) :
    (bsStep st r =
      { lower := if 0 < r.l2d then st.const else st.lower,
        upper := if 0 < r.l2d then st.upper else st.const,
        const :=
          if (if 0 < r.l2d then st.upper else st.const) = INFTY then
            st.const * 10
          else if (if 0 < r.l2d then st.const else st.lower) = 0 then
            st.const / 10
          else ((if 0 < r.l2d then st.const else st.lower) +
                (if 0 < r.l2d then st.upper else st.const)) / 2,
        xAdv := if ¬ 0 < r.l2d ∧ r.isAdv = true then r.cand else st.xAdv }) ∧
    ((bsStep st r).xAdv = st.xAdv ∨
      ((bsStep st r).xAdv = r.cand ∧ r.isAdv = true)) := by
  constructor
  · by_cases hd : 0 < r.l2d <;> cases hr : r.isAdv <;>
      simp [bsStep, hd, hr]
  · by_cases hd : 0 < r.l2d <;> cases hr : r.isAdv <;>
      simp [bsStep, hd, hr]

/-! ### The binary-search invariant (C4, C8)

Reachable states of the per-sample search satisfy `0 ≤ lower ≤ const` and
`const ≤ upper` unless `upper` still holds the sentinel.  This is what makes
`lower` non-decreasing and `upper` non-increasing once set; the transition
that first overwrites the sentinel can numerically *increase* `upper`
whenever `const` has grown beyond `1e20`, which is why claim C4 as stated
fails (see `c4_counterexample`). -/

/-- Invariant of the reachable per-sample binary-search states. -/
def BsInv {α : Type} (st : BsState α) : Prop :=
  0 ≤ st.lower ∧ st.lower ≤ st.const ∧ (st.upper = INFTY ∨ st.const ≤ st.upper)

lemma INFTY_pos : (0 : ℚ) < INFTY := by norm_num [INFTY]

lemma bsStep_inv {α : Type} {st : BsState α} (r : Round α) (h : BsInv st) :
    BsInv (bsStep st r) := by
  obtain ⟨h1, h2, h3⟩ := h
  have hI := INFTY_pos
  by_cases hd : 0 < r.l2d
  · simp only [bsStep, if_pos hd, BsInv]
    split_ifs with hu hl
    · exact ⟨by linarith, by linarith, Or.inl hu⟩
    · rcases h3 with h3 | h3
      · exact absurd h3 hu
      · exact ⟨le_of_eq hl.symm, by rw [hl]; norm_num, Or.inr (by linarith)⟩
    · rcases h3 with h3 | h3
      · exact absurd h3 hu
      · exact ⟨by linarith, by linarith, Or.inr (by linarith)⟩
  · simp only [bsStep, if_neg hd, BsInv]
    split_ifs with hu hl
    · exact ⟨h1, by linarith, Or.inl hu⟩
    · refine ⟨h1, ?_, Or.inr (by linarith)⟩
      rw [hl] at h1 h2 ⊢
      linarith
    · exact ⟨h1, by linarith, Or.inr (by linarith)⟩

lemma bsStep_lower_mono {α : Type} {st : BsState α} (r : Round α)
    (h : BsInv st) : st.lower ≤ (bsStep st r).lower := by
  obtain ⟨h1, h2, h3⟩ := h
  by_cases hd : 0 < r.l2d <;> simp [bsStep, hd, h2]

lemma bsStep_upper_mono {α : Type} {st : BsState α} (r : Round α)
    (h : BsInv st) (hu : st.upper ≠ INFTY) :
    (bsStep st r).upper ≤ st.upper := by
  obtain ⟨h1, h2, h3⟩ := h
  rcases h3 with h3 | h3
  · exact absurd h3 hu
  · by_cases hd : 0 < r.l2d <;> simp [bsStep, hd, h3]

lemma bsFold_inv {α : Type} (l : List (Round α)) (st : BsState α)
    (h : BsInv st) : BsInv (l.foldl bsStep st) := by
  induction l generalizing st with
  | nil => exact h
  | cons r l ih => exact ih _ (bsStep_inv r h)

lemma bsInit_inv {α : Type} {c0 : ℚ} (h0 : 0 ≤ c0) (x0 : α) :
    BsInv (bsInit c0 x0) :=
  ⟨le_refl 0, h0, Or.inl rfl⟩

lemma bsRun_inv {α : Type} {c0 : ℚ} (h0 : 0 ≤ c0) (x0 : α)
    (l : List (Round α)) : BsInv (bsRun c0 x0 l) :=
  bsFold_inv l _ (bsInit_inv h0 x0)

lemma bsRun_take_succ {α : Type} (c0 : ℚ) (x0 : α) (rounds : List (Round α))
    (n : ℕ) (r : Round α) (hn : rounds[n]? = some r) :
    bsRun c0 x0 (rounds.take (n + 1)) =
      bsStep (bsRun c0 x0 (rounds.take n)) r := by
  unfold bsRun
  rw [List.take_succ, hn]
  simp [List.foldl_append]

/-- **C4 counterexample.**  The claim's monotonicity fails on the code: with
`initial_const = 2·INFTY`, a single round whose candidate satisfies the
perturbation constraint (`l2dist = 0`) rewrites `upper_bound` from its
sentinel initial value `1e20` to `2e20`, numerically *increasing* it; and
with `initial_const = -1`, a single round with `l2dist > 0` drops
`lower_bound` from its initial `0` to `-1`, so it is not non-decreasing. -/
theorem c4_counterexample :
    (bsInit (2 * INFTY) (0 : ℚ)).upper <
        (bsRun (2 * INFTY) (0 : ℚ) [⟨0, false, 0⟩]).upper ∧
    (bsRun (-1 : ℚ) (0 : ℚ) [⟨1, false, 0⟩]).lower <
        (bsInit (-1 : ℚ) (0 : ℚ)).lower := by
  constructor <;> norm_num [bsRun, bsInit, bsStep, INFTY]

/-- **C4 (amended).**  Provided `initial_const ≥ 0` (true of any sensible
call; the default is 1): for each sample, `lower_bound` starts at 0 and is
non-decreasing across rounds; `upper_bound` starts at the sentinel `INFTY`
and is non-increasing in every round that begins with `upper_bound` no longer
holding the sentinel value (only the round that first overwrites the sentinel
can numerically increase it, and only when `const > INFTY`); and
`lower_bound ≤ upper_bound` holds whenever `upper_bound` is not the
sentinel. -/
theorem c4_monotonicity_amended {α : Type} (c0 : ℚ) (x0 : α)
    (rounds : List (Round α)) (n : ℕ) (r : Round α)
    (h0 : 0 ≤ c0) (hn : rounds[n]? = some r) :
    (bsInit c0 x0).lower = 0 ∧ (bsInit c0 x0).upper = INFTY ∧
    (bsRun c0 x0 (rounds.take n)).lower ≤
        (bsRun c0 x0 (rounds.take (n + 1))).lower ∧
    ((bsRun c0 x0 (rounds.take n)).upper ≠ INFTY →
      (bsRun c0 x0 (rounds.take (n + 1))).upper ≤
        (bsRun c0 x0 (rounds.take n)).upper) ∧
    ((bsRun c0 x0 (rounds.take (n + 1))).upper ≠ INFTY →
      (bsRun c0 x0 (rounds.take (n + 1))).lower ≤
        (bsRun c0 x0 (rounds.take (n + 1))).upper) := by
  have hInv : BsInv (bsRun c0 x0 (rounds.take n)) := bsRun_inv h0 x0 _
  have hInv' : BsInv (bsRun c0 x0 (rounds.take (n + 1))) := bsRun_inv h0 x0 _
  have hstep := bsRun_take_succ c0 x0 rounds n r hn
  refine ⟨rfl, rfl, ?_, ?_, ?_⟩
  · rw [hstep]; exact bsStep_lower_mono r hInv
  · intro hu; rw [hstep]; exact bsStep_upper_mono r hInv hu
  · intro hu
    obtain ⟨h1, h2, h3⟩ := hInv'
    rcases h3 with h3 | h3
    · exact absurd h3 hu
    · linarith

/-- Witness for `c4_monotonicity_amended` at a concrete run. -/
theorem c4_monotonicity_amended_witness :
    ((0 : ℚ) ≤ 1 ∧ ([(⟨0, true, 5⟩ : Round ℚ)][0]? = some ⟨0, true, 5⟩)) ∧
    ((bsInit (1 : ℚ) (0 : ℚ)).lower = 0 ∧
     (bsInit (1 : ℚ) (0 : ℚ)).upper = INFTY ∧
     (bsRun 1 (0 : ℚ) ([⟨0, true, 5⟩].take 0)).lower ≤
        (bsRun 1 (0 : ℚ) ([⟨0, true, 5⟩].take 1)).lower ∧
     ((bsRun 1 (0 : ℚ) ([⟨0, true, 5⟩].take 0)).upper ≠ INFTY →
       (bsRun 1 (0 : ℚ) ([⟨0, true, 5⟩].take 1)).upper ≤
          (bsRun 1 (0 : ℚ) ([⟨0, true, 5⟩].take 0)).upper) ∧
     ((bsRun 1 (0 : ℚ) ([⟨0, true, 5⟩].take 1)).upper ≠ INFTY →
       (bsRun 1 (0 : ℚ) ([⟨0, true, 5⟩].take 1)).lower ≤
          (bsRun 1 (0 : ℚ) ([⟨0, true, 5⟩].take 1)).upper)) :=
  ⟨⟨by norm_num, by decide⟩,
    c4_monotonicity_amended 1 0 [⟨0, true, 5⟩] 0 ⟨0, true, 5⟩ (by norm_num)
      (by decide)⟩

/-! ### Fallback to the original input (C8) -/

lemma bsStep_xAdv_frame {α : Type} (st : BsState α) (r : Round α)
    (h : 0 < r.l2d ∨ r.isAdv = false) : (bsStep st r).xAdv = st.xAdv := by
  rcases h with h | h
  · simp [bsStep, h]
  · by_cases hd : 0 < r.l2d <;> simp [bsStep, hd, h]

lemma bsFold_xAdv_frame {α : Type} (l : List (Round α)) (st : BsState α)
    (h : ∀ r ∈ l, 0 < r.l2d ∨ r.isAdv = false) :
    (l.foldl bsStep st).xAdv = st.xAdv := by
  induction l generalizing st with
  | nil => rfl
  | cons r l ih =>
    rw [List.foldl_cons, ih _ (fun r' hr' => h r' (List.mem_cons_of_mem _ hr')),
      bsStep_xAdv_frame st r (h r (List.mem_cons_self _ _))]

/-- **C8.**  If `binary_search_steps = 0` (no rounds), the returned buffer for
each sample is the sample's original value; likewise if in every round the
sample's candidate either still has `l2dist > 0` or fails the success check,
`x_adv[i]` keeps the original unperturbed value.  A failed sample never
raises: the loop is total and simply leaves the clone of `x_orig` in place. -/
theorem c8_fallback_to_original {α : Type} (c0 : ℚ) (x0 : α)
    (rounds : List (Round α))
    (h : ∀ r ∈ rounds, 0 < r.l2d ∨ r.isAdv = false) :
    (bsRun c0 x0 []).xAdv = x0 ∧ (bsRun c0 x0 rounds).xAdv = x0 :=
  ⟨rfl, bsFold_xAdv_frame rounds _ h⟩

/-- Witness for `c8_fallback_to_original` on a concrete two-round run (one
round with `l2dist > 0`, one failing the success check). -/
theorem c8_fallback_to_original_witness :
    (∀ r ∈ [(⟨1, true, 7⟩ : Round ℚ), ⟨0, false, 9⟩],
        0 < r.l2d ∨ r.isAdv = false) ∧
    ((bsRun 1 (0 : ℚ) []).xAdv = 0 ∧
     (bsRun 1 (0 : ℚ) [⟨1, true, 7⟩, ⟨0, false, 9⟩]).xAdv = 0) :=
  ⟨by decide, c8_fallback_to_original 1 0 _ (by decide)⟩

/-! ## The inner optimizer loop and the early-abort rule (C6)

Lines 159-180 of `__call__`.  The control flow of the abort rule reads only
the loss values, so the optimizer is abstracted into the loss sequence
`f : ℕ → ℚ` (the loss observed at each iteration). -/

/-- `np.ceil(max_iterations / 10)` for a non-negative integer count. -/
def checkPeriod (m : ℕ) : ℕ := (m + 9) / 10

/-- The inner loop with `abort_early` (lines 159-180): iterate while fuel
remains; at every iteration `it` with `it % p = 0`, compare the loss to
`0.9999 * loss_at_previous_check` (`torch.gt(loss, .9999 *
loss_at_previous_check)`), break if strictly greater, otherwise record the
loss and continue.  Returns the iteration at which the loop broke, or the
total iteration count if it never broke. -/
def innerLoop (f : ℕ → ℚ) (p : ℕ) : ℚ → ℕ → ℕ → ℕ
  | _, it, 0 => it
  | prev, it, fuel + 1 =>
    if it % p = 0 then
      if 0.9999 * prev < f it then it
      else innerLoop f p (f it) (it + 1) fuel
    else innerLoop f p prev (it + 1) fuel

/-- The inner loop as entered by `__call__`: `loss_at_previous_check` starts
at `INFTY` (line 153) and up to `max_iterations` iterations run. -/
def innerStop (f : ℕ → ℚ) (m : ℕ) : ℕ := innerLoop f (checkPeriod m) INFTY 0 m

/-- Checkpoint-level statement of the abort rule, parametrized by the
comparison `cmp` applied at a checkpoint.  At checkpoint iteration `j * p`
(while `j * p < m`): stop there when `cmp prev loss` holds, otherwise record
the loss and move on to the next checkpoint; with no checkpoint left the
loop runs all `m` iterations. -/
def specStop (cmp : ℚ → ℚ → Bool) (f : ℕ → ℚ) (p m : ℕ) :
    ℚ → ℕ → ℕ → ℕ
  | _, _, 0 => m
  | prev, j, fuel + 1 =>
    if j * p < m then
      if cmp prev (f (j * p)) then j * p
      else specStop cmp f p m (f (j * p)) (j + 1) fuel
    else m

/-- The strict comparison the code performs at a checkpoint. -/
def gtCmp (prev v : ℚ) : Bool := decide (0.9999 * prev < v)

/-- The non-strict comparison the claim describes ("not smaller than 99.99%
of the previous checkpoint's loss"). -/
def geCmp (prev v : ℚ) : Bool := decide (0.9999 * prev ≤ v)

lemma checkpoint_gap {p it : ℕ} (h : it % p = 0) {j : ℕ} (hj0 : 0 < j)
    (hjp : j < p) : (it + j) % p ≠ 0 := by
  have hjj : j % p = j := Nat.mod_eq_of_lt hjp
  rw [Nat.add_mod, h, Nat.zero_add, hjj, hjj]
  omega

lemma innerLoop_skip (f : ℕ → ℚ) (p : ℕ) :
    ∀ (s : ℕ) (prev : ℚ) (it fuel : ℕ), s ≤ fuel →
      (∀ j < s, (it + j) % p ≠ 0) →
      innerLoop f p prev it fuel = innerLoop f p prev (it + s) (fuel - s) := by
  intro s
  induction s with
  | zero => intro prev it fuel _ _; simp
  | succ s ih =>
    intro prev it fuel hs hj
    obtain ⟨fuel', rfl⟩ : ∃ fuel', fuel = fuel' + 1 := ⟨fuel - 1, by omega⟩
    have h0 : it % p ≠ 0 := by simpa using hj 0 (Nat.succ_pos s)
    have hrest : ∀ j < s, (it + 1 + j) % p ≠ 0 := by
      intro j hjs
      have := hj (j + 1) (by omega)
      rwa [show it + (j + 1) = it + 1 + j by omega] at this
    have hrec := ih prev (it + 1) fuel' (by omega) hrest
    simp only [innerLoop, if_neg h0]
    rw [hrec, show it + 1 + s = it + (s + 1) by omega,
      show fuel' - s = fuel' + 1 - (s + 1) by omega]

lemma specStop_stuck (cmp : ℚ → ℚ → Bool) (f : ℕ → ℚ) (p m : ℕ) (prev : ℚ)
    (j : ℕ) (hj : ¬ j * p < m) (sfuel : ℕ) :
    specStop cmp f p m prev j sfuel = m := by
  cases sfuel with
  | zero => rfl
  | succ s => simp [specStop, hj]

lemma innerLoop_eq_specStop (f : ℕ → ℚ) (p m : ℕ) (hp : 0 < p) :
    ∀ (sfuel j : ℕ) (prev : ℚ), m ≤ j + sfuel → j * p ≤ m →
      innerLoop f p prev (j * p) (m - j * p) =
        specStop gtCmp f p m prev j sfuel := by
  intro sfuel
  induction sfuel with
  | zero =>
    intro j prev hm hj
    have hjle : j ≤ j * p := Nat.le_mul_of_pos_right j hp
    have hjm : j * p = m := by omega
    rw [hjm, Nat.sub_self]
    rfl
  | succ sfuel ih =>
    intro j prev hm hj
    have hmul : (j + 1) * p = j * p + p := Nat.succ_mul j p
    by_cases hjm : j * p < m
    · obtain ⟨fl, hfl⟩ : ∃ fl, m - j * p = fl + 1 := ⟨m - j * p - 1, by omega⟩
      rw [hfl]
      have hit : (j * p) % p = 0 := Nat.mul_mod_left j p
      simp only [innerLoop, if_pos hit, specStop, if_pos hjm]
      by_cases hbr : 0.9999 * prev < f (j * p)
      · rw [if_pos hbr, if_pos (by simpa [gtCmp] using hbr)]
      · rw [if_neg hbr, if_neg (by simpa [gtCmp] using hbr)]
        by_cases hnext : (j + 1) * p ≤ m
        · have hskip := innerLoop_skip f p (p - 1) (f (j * p)) (j * p + 1) fl
            (by omega)
            (fun jj hjj => by
              have := checkpoint_gap hit (j := 1 + jj) (by omega) (by omega)
              rwa [show j * p + (1 + jj) = j * p + 1 + jj by omega] at this)
          rw [hskip, show j * p + 1 + (p - 1) = (j + 1) * p by omega,
            show fl - (p - 1) = m - (j + 1) * p by omega]
          exact ih (j + 1) (f (j * p)) (by omega) hnext
        · have hflp : fl < p - 1 := by omega
          have hskip := innerLoop_skip f p fl (f (j * p)) (j * p + 1) fl le_rfl
            (fun jj hjj => by
              have := checkpoint_gap hit (j := 1 + jj) (by omega) (by omega)
              rwa [show j * p + (1 + jj) = j * p + 1 + jj by omega] at this)
          rw [hskip, Nat.sub_self]
          rw [specStop_stuck gtCmp f p m _ (j + 1) (by omega) sfuel]
          show j * p + 1 + fl = m
          omega
    · have hjm' : j * p = m := le_antisymm hj (le_of_not_lt hjm)
      rw [hjm', Nat.sub_self]
      show m = specStop gtCmp f p m prev j (sfuel + 1)
      rw [specStop_stuck gtCmp f p m prev j (by omega) (sfuel + 1)]

/-- **C6 counterexample.**  A loss exactly equal to 99.99% of the previous
checkpoint's loss does *not* abort the loop — the code tests strict
`torch.gt` — while the claim's "not smaller than" (`≥`) rule stops there.
With `max_iterations = 20` (checkpoint period 2) and losses
`1, 1, 0.9999, 1, 1, ...`, the code aborts at iteration 4 but the claimed
rule aborts at iteration 2. -/
theorem c6_counterexample :
    innerStop (fun i => if i = 0 then 1 else if i = 2 then 0.9999 else 1)
        20 = 4 ∧
    specStop geCmp (fun i => if i = 0 then 1 else if i = 2 then 0.9999 else 1)
        (checkPeriod 20) 20 INFTY 0 20 = 2 := by
  constructor <;>
    norm_num [innerStop, innerLoop, checkPeriod, specStop, geCmp, INFTY]

/-- **C6 (amended).**  With `abort_early` enabled, a progress check runs at
every iteration that is a multiple of `ceil(max_iterations/10)`, and the
loop terminates early exactly when the current loss is *strictly greater*
than 99.99% of the loss recorded at the previous such checkpoint; otherwise
the checkpoint value is updated to the current loss and iteration
continues. -/
theorem c6_abort_rule_amended (f : ℕ → ℚ) (m : ℕ) :
    innerStop f m = specStop gtCmp f (checkPeriod m) m INFTY 0 m := by
  rcases Nat.eq_zero_or_pos m with rfl | hm
  · rfl
  · have hp : 0 < checkPeriod m := by unfold checkPeriod; omega
    have h := innerLoop_eq_specStop f (checkPeriod m) m hp m 0 INFTY
      (by omega) (by simp)
    simpa [innerStop] using h

/-! ## Guide sample selection (C5, C9)

`find_guide_samples` (mode 1, lines 241-261) and `find_guide_samples_v2` /
`find_nn_same_class` (mode 2, lines 263-291).  `get_neighbors` and
`find_nn_diff_class` are oracle calls; their per-sample outputs — the full
ascending ranking of training-set distances `d` / indices `ind`, and the
anchor index — are parameters of the embedding, as are `x_train` and
`y_train`. -/

/-- `np.argmin`: the index of the first occurrence of the minimal value
(0 for an empty vector). -/
def npArgmin (l : List ℚ) : ℕ :=
  match l.argmin id with
  | none => 0
  | some q => l.indexOf q

lemma npArgmin_spec {l : List ℚ} (h : l ≠ []) :
    npArgmin l < l.length ∧
      ∀ j < l.length, l.getD (npArgmin l) 0 ≤ l.getD j 0 := by
  obtain ⟨q, hq⟩ : ∃ q, l.argmin id = some q := by
    cases hh : l.argmin id with
    | none => exact absurd (List.argmin_eq_none.mp hh) h
    | some q => exact ⟨q, rfl⟩
  have hmem : q ∈ l := List.argmin_mem hq
  have hlt : l.indexOf q < l.length := List.indexOf_lt_length.2 hmem
  have hval : l[l.indexOf q] = q := List.getElem_indexOf hlt
  have hidx : npArgmin l = l.indexOf q := by simp [npArgmin, hq]
  constructor
  · rw [hidx]; exact hlt
  · intro j hj
    rw [hidx, List.getD_eq_getElem l 0 (by omega), List.getD_eq_getElem l 0 hj,
      hval]
    exact List.le_of_mem_argmin (List.getElem_mem hj) hq

/-- `np.where(y_train[ind] == c)[0]`: positions in the ranking whose training
label is `c`, in order. -/
def classPositions (yTrain ind : List ℕ) (c : ℕ) : List ℕ :=
  (List.range ind.length).filter (fun p => yTrain.getD (ind.getD p 0) 0 = c)

/-- `np.mean` (model: the mean of an empty list is 0). -/
def listMean (l : List ℚ) : ℚ := l.sum / l.length

/-- `np.mean(d[np.where(y_train[ind] == j)[0]][:k])` (line 254-255). -/
def classMeanDist (d : List ℚ) (yTrain ind : List ℕ) (k j : ℕ) : ℚ :=
  listMean (((classPositions yTrain ind j).take k).map (fun p => d.getD p 0))

/-- `mean_dist` after `mean_dist[label[i]] += INFTY` (lines 252-256). -/
def meanDistVec (d : List ℚ) (yTrain ind : List ℕ) (k C lab : ℕ) : List ℚ :=
  (List.range C).map
    (fun j => classMeanDist d yTrain ind k j + if j = lab then INFTY else 0)

/-- `nearest_label = mean_dist.argmin()` (line 257). -/
def nearestLabel (d : List ℚ) (yTrain ind : List ℕ) (k C lab : ℕ) : ℕ :=
  npArgmin (meanDistVec d yTrain ind k C lab)

/-- `ind[nn_ind]` with `nn_ind = np.where(y_train[ind] ==
nearest_label)[0][:k]` (lines 258-259): the guide training indices selected
for one sample in mode 1. -/
def guideIndicesRow (d : List ℚ) (yTrain ind : List ℕ) (k C lab : ℕ) :
    List ℕ :=
  ((classPositions yTrain ind (nearestLabel d yTrain ind k C lab)).take k).map
    (fun p => ind.getD p 0)

/-- The assignment `nn[i] = t` of `k'` rows into the `(k, ...)`-shaped slot of
the preallocated `torch.zeros` buffer (lines 247/259, 283/289): an exact size
match copies, a single row broadcasts into all `k` slots, and any other size
raises a shape error (`none`). -/
def assignRows {β : Type} (k : ℕ) (rows : List β) : Option (List β) :=
  if rows.length = k then some rows
  else
    match rows with
    | [r] => some (List.replicate k r)
    | _ => none

/-- The per-sample loop `for i, ... in enumerate(...)` whose body assigns into
the preallocated buffer; a shape error in any iteration aborts the call. -/
def collectRows {γ β : Type} (f : γ → Option β) : List γ → Option (List β)
  | [] => some []
  | a :: l =>
    match f a, collectRows f l with
    | some b, some bs => some (b :: bs)
    | _, _ => none

/-- `find_guide_samples` (mode 1, lines 241-261): per sample, choose the class
with minimal truncated mean neighbor distance (the true label's mean is
inflated by `INFTY`), gather the first `k` ranked training samples of that
class, and assign them into the `(batch, k, ...)` buffer.  `neigh` is the
per-sample `get_neighbors` output `(d, ind)` and `labels` the batch's true
labels. -/
def find_guide_samples {β : Type} (dflt : β) (xTrain : List β)
    (yTrain : List ℕ) (k C : ℕ) (neigh : List (List ℚ × List ℕ))
    (labels : List ℕ) : Option (List (List β)) :=
  collectRows
    (fun dl =>
      assignRows k
        ((guideIndicesRow dl.1.1 yTrain dl.1.2 k C dl.2).map
          (fun t => xTrain.getD t dflt)))
    (neigh.zip labels)

/-- `find_nn_same_class` restricted to one sample (lines 287-289): the first
`k` ranked positions carrying the anchor's own training label, mapped through
`ind`. -/
def nnSameClassRow (yTrain ind : List ℕ) (anchor k : ℕ) : List ℕ :=
  ((classPositions yTrain ind (yTrain.getD anchor 0)).take k).map
    (fun p => ind.getD p 0)

/-- `find_nn_same_class` (lines 275-291): per anchor, gather the `k` ranked
training samples sharing the anchor's label, assigning into a
`(batch, k, ...)` buffer. Only the index half of `get_neighbors` is used. -/
def find_nn_same_class {β : Type} (dflt : β) (xTrain : List β)
    (yTrain : List ℕ) (k : ℕ) (inds : List (List ℕ)) (anchors : List ℕ) :
    Option (List (List β)) :=
  collectRows
    (fun ia =>
      assignRows k
        ((nnSameClassRow yTrain ia.1 ia.2 k).map
          (fun t => xTrain.getD t dflt)))
    (inds.zip anchors)

/-- `find_guide_samples_v2` (mode 2, lines 263-273): the oracle's
`find_nn_diff_class` produces one anchor training index per sample
(`anchors`), and the rest is `find_nn_same_class` on those anchors. -/
def find_guide_samples_v2 {β : Type} (dflt : β) (xTrain : List β)
    (yTrain : List ℕ) (k : ℕ) (inds : List (List ℕ)) (anchors : List ℕ) :
    Option (List (List β)) :=
  find_nn_same_class dflt xTrain yTrain k inds anchors

lemma sum_lt_length_mul {B : ℚ} :
    ∀ (l : List ℚ), l ≠ [] → (∀ q ∈ l, q < B) → l.sum < l.length * B := by
  intro l
  induction l with
  | nil => simp
  | cons a t ih =>
    intro _ h
    cases t with
    | nil => simpa using h a (by simp)
    | cons b t' =>
      have ht := ih (by simp) (fun q hq => h q (List.mem_cons_of_mem a hq))
      have ha := h a (List.mem_cons_self a _)
      simp only [List.sum_cons, List.length_cons] at *
      push_cast at *
      linarith

lemma listMean_bounds {B : ℚ} (hB : 0 < B) (l : List ℚ)
    (h : ∀ q ∈ l, 0 ≤ q ∧ q < B) : 0 ≤ listMean l ∧ listMean l < B := by
  cases hl : l with
  | nil => simpa [listMean] using hB
  | cons a t =>
    rw [← hl]
    have hne : l ≠ [] := by rw [hl]; simp
    have hlen : 0 < (l.length : ℚ) := by
      have : 0 < l.length := List.length_pos.mpr hne
      exact_mod_cast this
    constructor
    · exact div_nonneg (List.sum_nonneg (fun q hq => (h q hq).1)) hlen.le
    · rw [listMean, div_lt_iff₀ hlen]
      have := sum_lt_length_mul l hne (fun q hq => (h q hq).2)
      linarith [this]

lemma getD_mem_bound {d : List ℚ} {B : ℚ} (hB : 0 < B)
    (hd : ∀ q ∈ d, 0 ≤ q ∧ q < B) (p : ℕ) :
    0 ≤ d.getD p 0 ∧ d.getD p 0 < B := by
  by_cases hp : p < d.length
  · rw [List.getD_eq_getElem d 0 hp]
    exact hd _ (List.getElem_mem hp)
  · rw [List.getD_eq_default d 0 (by omega)]
    exact ⟨le_refl 0, hB⟩

lemma classMeanDist_bounds {d : List ℚ} (yTrain ind : List ℕ) (k j : ℕ)
    (hd : ∀ q ∈ d, 0 ≤ q ∧ q < INFTY) :
    0 ≤ classMeanDist d yTrain ind k j ∧
      classMeanDist d yTrain ind k j < INFTY := by
  refine listMean_bounds INFTY_pos _ (fun q hq => ?_)
  obtain ⟨p, _, rfl⟩ := List.mem_map.mp hq
  exact getD_mem_bound INFTY_pos hd p

lemma meanDistVec_getD {d : List ℚ} (yTrain ind : List ℕ) (k C lab : ℕ)
    {j : ℕ} (hj : j < C) :
    (meanDistVec d yTrain ind k C lab).getD j 0 =
      classMeanDist d yTrain ind k j + if j = lab then INFTY else 0 := by
  have hjlen : j < (meanDistVec d yTrain ind k C lab).length := by
    simp [meanDistVec, hj]
  rw [List.getD_eq_getElem _ 0 hjlen]
  simp [meanDistVec]

lemma nearestLabel_ne {d : List ℚ} (yTrain ind : List ℕ) (k C lab : ℕ)
    (hC : 2 ≤ C) (hlab : lab < C)
    (hd : ∀ q ∈ d, 0 ≤ q ∧ q < INFTY) :
    nearestLabel d yTrain ind k C lab ≠ lab := by
  set v := meanDistVec d yTrain ind k C lab with hv
  have hvlen : v.length = C := by simp [hv, meanDistVec]
  have hvne : v ≠ [] := by
    intro hnil
    rw [hnil] at hvlen
    simp at hvlen
    omega
  obtain ⟨hlt, hmin⟩ := npArgmin_spec hvne
  -- a class different from the true label
  obtain ⟨j0, hj0C, hj0⟩ : ∃ j0, j0 < C ∧ j0 ≠ lab := by
    rcases Nat.eq_zero_or_pos lab with h0 | h0
    · exact ⟨1, by omega, by omega⟩
    · exact ⟨0, by omega, by omega⟩
  intro heq
  have hnl : nearestLabel d yTrain ind k C lab = npArgmin v := rfl
  rw [hnl] at heq
  have h1 : v.getD (npArgmin v) 0 ≤ v.getD j0 0 := hmin j0 (by omega)
  have h2 : v.getD j0 0 < INFTY := by
    rw [meanDistVec_getD yTrain ind k C lab hj0C, if_neg hj0]
    simpa using (classMeanDist_bounds yTrain ind k j0 hd).2
  have h3 : INFTY ≤ v.getD lab 0 := by
    rw [meanDistVec_getD yTrain ind k C lab hlab, if_pos rfl]
    linarith [(classMeanDist_bounds yTrain ind k lab hd).1]
  rw [heq] at h1
  linarith

/-- **C5.**  Guide-set label invariant.  Mode 1: under the spec's standing
assumptions (at least two classes, the true label in range, oracle distances
non-negative and below the sentinel `1e20`), the class selected by
`find_guide_samples` differs from the input's true label — its mean distance
is inflated by the sentinel — and every selected guide index carries exactly
that single class.  Mode 2: given the `find_nn_diff_class` oracle contract
(the anchor's training label differs from the true label), every guide index
selected by `find_nn_same_class` carries the anchor's label, hence a label
different from the input's true label. -/
theorem c5_guide_label_invariant (d : List ℚ) (yTrain ind ind2 : List ℕ)
    (k C lab anchor : ℕ) (hC : 2 ≤ C) (hlab : lab < C)
    (hd : ∀ q ∈ d, 0 ≤ q ∧ q < INFTY)
    (hanchor : yTrain.getD anchor 0 ≠ lab) :
    (nearestLabel d yTrain ind k C lab ≠ lab ∧
      ∀ t ∈ guideIndicesRow d yTrain ind k C lab,
        yTrain.getD t 0 = nearestLabel d yTrain ind k C lab) ∧
    (∀ t ∈ nnSameClassRow yTrain ind2 anchor k,
      yTrain.getD t 0 = yTrain.getD anchor 0 ∧ yTrain.getD t 0 ≠ lab) := by
  refine ⟨⟨nearestLabel_ne yTrain ind k C lab hC hlab hd, ?_⟩, ?_⟩
  · intro t ht
    obtain ⟨p, hp, rfl⟩ := List.mem_map.mp ht
    have hp' := List.take_subset k _ hp
    exact of_decide_eq_true (List.mem_filter.mp hp').2
  · intro t ht
    obtain ⟨p, hp, rfl⟩ := List.mem_map.mp ht
    have hp' := List.take_subset k _ hp
    have := of_decide_eq_true (List.mem_filter.mp hp').2
    exact ⟨this, this ▸ hanchor⟩

/-- Witness for `c5_guide_label_invariant` at a concrete instance
(two classes, two training points, `k = 1`). -/
theorem c5_guide_label_invariant_witness :
    ((2 : ℕ) ≤ 2 ∧ (0 : ℕ) < 2 ∧ (∀ q ∈ [(1 : ℚ), 2], 0 ≤ q ∧ q < INFTY) ∧
      [0, 1].getD 1 0 ≠ 0) ∧
    ((nearestLabel [1, 2] [0, 1] [0, 1] 1 2 0 ≠ 0 ∧
      ∀ t ∈ guideIndicesRow [1, 2] [0, 1] [0, 1] 1 2 0,
        [0, 1].getD t 0 = nearestLabel [1, 2] [0, 1] [0, 1] 1 2 0) ∧
     (∀ t ∈ nnSameClassRow [0, 1] [0, 1] 1 1,
        [0, 1].getD t 0 = [0, 1].getD 1 0 ∧ [0, 1].getD t 0 ≠ 0)) :=
  ⟨⟨by norm_num, by norm_num,
    by intro q hq; fin_cases hq <;> norm_num [INFTY], by decide⟩,
   c5_guide_label_invariant [1, 2] [0, 1] [0, 1] [0, 1] 1 2 0 1
     (by norm_num) (by norm_num)
     (by intro q hq; fin_cases hq <;> norm_num [INFTY]) (by decide)⟩

/-! ### The short-guide-set edge case (C9) -/

lemma assignRows_length {β : Type} {k : ℕ} {rows out : List β}
    (h : assignRows k rows = some out) : out.length = k := by
  unfold assignRows at h
  split_ifs at h with hk
  · cases h; omega
  · cases rows with
    | nil => cases h
    | cons r t =>
      cases t with
      | nil => cases h; simp
      | cons b t' => cases h

lemma assignRows_none {β : Type} {k : ℕ} {rows : List β}
    (hk : rows.length ≠ k) (h1 : rows.length ≠ 1) :
    assignRows k rows = none := by
  unfold assignRows
  rw [if_neg hk]
  cases rows with
  | nil => rfl
  | cons r t =>
    cases t with
    | nil => simp at h1
    | cons b t' => rfl

lemma collectRows_mem {γ β : Type} (f : γ → Option β) :
    ∀ (l : List γ) (out : List β), collectRows f l = some out →
      ∀ b ∈ out, ∃ a ∈ l, f a = some b := by
  intro l
  induction l with
  | nil =>
    intro out h b hb
    cases h
    simp at hb
  | cons a t ih =>
    intro out h b hb
    unfold collectRows at h
    cases hfa : f a with
    | none => rw [hfa] at h; cases h
    | some v =>
      rw [hfa] at h
      cases hct : collectRows f t with
      | none => rw [hct] at h; cases h
      | some vs =>
        rw [hct] at h
        cases h
        rcases List.mem_cons.mp hb with rfl | hb'
        · exact ⟨a, List.mem_cons_self a t, hfa⟩
        · obtain ⟨a', ha', hfa'⟩ := ih vs hct b hb'
          exact ⟨a', List.mem_cons_of_mem a ha', hfa'⟩

lemma collectRows_none {γ β : Type} (f : γ → Option β) :
    ∀ (l : List γ) (a : γ), a ∈ l → f a = none → collectRows f l = none := by
  intro l
  induction l with
  | nil => intro a ha; cases ha
  | cons b t ih =>
    intro a ha hfa
    unfold collectRows
    rcases List.mem_cons.mp ha with rfl | ha'
    · rw [hfa]
    · rw [ih a ha' hfa]
      cases f b <;> rfl

/-- **C9 counterexample.**  The claim's "shorter guide set, no shape error"
behavior does not hold: with five training points of classes
`[0, 0, 0, 1, 1]`, `k = 3` guides requested, and true label 0, the nearest
differing class 1 has only 2 ranked samples, and the assignment
`nn[i] = x_train[ind[nn_ind]]` of 2 rows into the `(3, ...)`-shaped slot of
the preallocated buffer is a broadcast shape error: the call fails rather
than returning a 2-element guide set. -/
theorem c9_counterexample :
    find_guide_samples (0 : ℚ) [0, 1, 2, 3, 4] [0, 0, 0, 1, 1] 3 2
      [([1, 1, 1, 1, 1], [0, 1, 2, 3, 4])] [0] = none := by
  norm_num [find_guide_samples, collectRows, assignRows, guideIndicesRow,
    nearestLabel, npArgmin, meanDistVec, classMeanDist, classPositions,
    listMean, INFTY, List.argmin, List.argAux, List.range_succ, List.indexOf,
    List.findIdx, List.findIdx.go, Bool.cond_eq_ite, beq_iff_eq]

/-- **C9 (amended).**  In guide-selection mode 1 the guide set is never
shorter than `k`: every successfully returned per-sample guide list has
length exactly `k`, and whenever the class-filtered, `k`-truncated selection
for some sample has a size other than `k` or 1, the buffer assignment raises
a shape error and `find_guide_samples` fails (a size of exactly 1 is instead
silently broadcast into all `k` slots). -/
theorem c9_no_short_guide_set_amended {β : Type} (dflt : β) (xTrain : List β)
    (yTrain : List ℕ) (k C : ℕ) (neigh : List (List ℚ × List ℕ))
    (labels : List ℕ) :
    (∀ out, find_guide_samples dflt xTrain yTrain k C neigh labels = some out →
      ∀ row ∈ out, row.length = k) ∧
    (∀ dl ∈ neigh.zip labels,
      (guideIndicesRow dl.1.1 yTrain dl.1.2 k C dl.2).length ≠ k →
      (guideIndicesRow dl.1.1 yTrain dl.1.2 k C dl.2).length ≠ 1 →
      find_guide_samples dflt xTrain yTrain k C neigh labels = none) := by
  constructor
  · intro out hout row hrow
    obtain ⟨dl, _, hdl⟩ := collectRows_mem _ _ out hout row hrow
    exact assignRows_length hdl
  · intro dl hdl hk h1
    refine collectRows_none _ _ dl hdl ?_
    refine assignRows_none ?_ ?_ <;>
      simpa [List.length_map] using (by assumption)

/-- Witness for `c9_no_short_guide_set_amended`: a concrete successful call
whose returned guide rows all have length `k = 1`. -/
theorem c9_no_short_guide_set_amended_witness :
    find_guide_samples (0 : ℚ) [10, 20] [0, 1] 1 2 [([1, 2], [0, 1])] [0] =
        some [[20]] ∧
    ∀ row ∈ [[(20 : ℚ)]], row.length = 1 :=
  have h : find_guide_samples (0 : ℚ) [10, 20] [0, 1] 1 2 [([1, 2], [0, 1])]
      [0] = some [[20]] := by
    norm_num [find_guide_samples, collectRows, assignRows, guideIndicesRow,
      nearestLabel, npArgmin, meanDistVec, classMeanDist, classPositions,
      listMean, INFTY, List.argmin, List.argAux, List.range_succ,
      List.indexOf, List.findIdx, List.findIdx.go, Bool.cond_eq_ite,
      beq_iff_eq]
  ⟨h, (c9_no_short_guide_set_amended 0 [10, 20] [0, 1] 1 2 [([1, 2], [0, 1])]
      [0]).1 [[20]] h⟩

/-! ## The loss function (C2)

`DKNNLinfAttack.loss_function` (lines 219-239).  Layers carry an arbitrary
index type `L`; `reps l` is the batch of flattened per-sample representations
at layer `l` and `guideReps l` the batch of `m` flattened guide
representations at `l` (the read-only cache built at lines 132-143). -/

/-- `((rep - guide)**2).sum` over the feature dimension, for one guide. -/
def sqDistSum (u v : List ℚ) : ℚ :=
  (List.zipWith (fun a b => (a - b) ^ 2) u v).sum

/-- `adv_loss[:, l] = ((rep - guide_reps[layer])**2).sum((1, 2))` for one
sample (lines 229-231): summed over the `m` guides and the features. -/
def advLossEntry (rep : List ℚ) (guides : List (List ℚ)) : ℚ :=
  (guides.map (fun g => sqDistSum rep g)).sum

/-- `adv_loss.mean(1)` for sample `i` (line 237): the per-layer entries
averaged across the active layers. -/
def advLossRow {L : Type} (layers : List L) (reps : L → List (List ℚ))
    (guideReps : L → List (List (List ℚ))) (i : ℕ) : ℚ :=
  listMean (layers.map
    (fun l => advLossEntry ((reps l).getD i []) ((guideReps l).getD i [])))

/-- One feature's soft-hinge penalty (line 233):
`max(0, |x - x_recon| - 0.1)`, squared. -/
def hingeSq (a b : ℚ) : ℚ := (max 0 (|a - b| - 0.1)) ^ 2

/-- `dist` for sample `i` (lines 233-234): the squared hinge averaged over
all feature dimensions. -/
def distRow (xi xri : List ℚ) : ℚ := listMean (List.zipWith hingeSq xi xri)

/-- `total_loss` for sample `i` (line 237):
`const[i] * dist[i] + adv_loss.mean(1)[i]`. -/
def totalLossRow {L : Type} (layers : List L) (reps : L → List (List ℚ))
    (guideReps : L → List (List (List ℚ))) (const : List ℚ)
    (x xRecon : List (List ℚ)) (i : ℕ) : ℚ :=
  const.getD i 0 * distRow (x.getD i []) (xRecon.getD i []) +
    advLossRow layers reps guideReps i

/-- `loss_function` (lines 219-239): returns `total_loss.mean()` (the batch
mean, a scalar) and `dist.sqrt()` (per sample). -/
noncomputable def loss_function {L : Type} (layers : List L)
    (reps : L → List (List ℚ)) (guideReps : L → List (List (List ℚ)))
    (const : List ℚ) (x xRecon : List (List ℚ)) : ℝ × List ℝ :=
  (((listMean ((List.range x.length).map
      (totalLossRow layers reps guideReps const x xRecon)) : ℚ) : ℝ),
   (List.range x.length).map
     (fun i => Real.sqrt ((distRow (x.getD i []) (xRecon.getD i []) : ℚ) : ℝ)))

lemma sum_map_range (n : ℕ) (f : ℕ → ℚ) :
    ((List.range n).map f).sum = ∑ j ∈ Finset.range n, f j := by
  induction n with
  | zero => simp
  | succ n ih =>
    rw [List.range_succ, List.map_append, List.sum_append,
      Finset.sum_range_succ, ih]
    simp

lemma listMean_map_range (n : ℕ) (f : ℕ → ℚ) :
    listMean ((List.range n).map f) = (∑ j ∈ Finset.range n, f j) / n := by
  rw [listMean, sum_map_range]
  simp

lemma sum_map_getD {α : Type} (dflt : α) (F : α → ℚ) :
    ∀ (l : List α),
      (l.map F).sum = ∑ j ∈ Finset.range l.length, F (l.getD j dflt) := by
  intro l
  induction l with
  | nil => simp
  | cons a t ih =>
    rw [List.map_cons, List.sum_cons, List.length_cons,
      Finset.sum_range_succ', ih]
    simp [add_comm]

lemma sum_zipWith (h : ℚ → ℚ → ℚ) :
    ∀ (u v : List ℚ), v.length = u.length →
      (List.zipWith h u v).sum =
        ∑ j ∈ Finset.range u.length, h (u.getD j 0) (v.getD j 0) := by
  intro u
  induction u with
  | nil => intro v _; simp
  | cons a t ih =>
    intro v hv
    cases v with
    | nil => simp at hv
    | cons b s =>
      simp only [List.length_cons] at hv
      rw [List.zipWith_cons_cons, List.sum_cons, List.length_cons,
        Finset.sum_range_succ', ih s (by omega)]
      simp [add_comm]

lemma listMean_zipWith (h : ℚ → ℚ → ℚ) (u v : List ℚ) (D : ℕ)
    (hu : u.length = D) (hv : v.length = D) :
    listMean (List.zipWith h u v) =
      (∑ j ∈ Finset.range D, h (u.getD j 0) (v.getD j 0)) / D := by
  rw [listMean, List.length_zipWith, hu, hv, min_self,
    sum_zipWith h u v (by omega), hu]

/-- **C2.**  Per sample `i` the loss function computes: `adv_loss[i]` equal
to the mean over the active layers of the squared L2 distances between the
sample's layer representation and each of the `m` guide representations,
summed over guides and features; `dist[i]` equal to the mean over all feature
dimensions of `max(0, |x - x_recon| - 0.1)` squared; the per-sample total
`const[i] * dist[i] + adv_loss[i]`; and it returns the batch mean of the
total together with the per-sample square root of `dist`. -/
theorem c2_loss_function {L : Type} [Inhabited L] (layers : List L)
    (reps : L → List (List ℚ)) (guideReps : L → List (List (List ℚ)))
    (const : List ℚ) (x xRecon : List (List ℚ)) (i m D : ℕ)
    (hi : i < x.length)
    (hD : (x.getD i []).length = D)
    (hDr : (xRecon.getD i []).length = D)
    (hm : ∀ l ∈ layers, ((guideReps l).getD i []).length = m)
    (hg : ∀ l ∈ layers, ∀ g ∈ (guideReps l).getD i [],
        g.length = ((reps l).getD i []).length) :
    advLossRow layers reps guideReps i =
      (∑ li ∈ Finset.range layers.length, ∑ g ∈ Finset.range m,
        ∑ f ∈ Finset.range
            ((reps (layers.getD li default)).getD i []).length,
          (((reps (layers.getD li default)).getD i []).getD f 0 -
            (((guideReps (layers.getD li default)).getD i []).getD g
              []).getD f 0) ^ 2) / layers.length ∧
    distRow (x.getD i []) (xRecon.getD i []) =
      (∑ f ∈ Finset.range D,
        (max 0 (|(x.getD i []).getD f 0 - (xRecon.getD i []).getD f 0| -
          0.1)) ^ 2) / D ∧
    totalLossRow layers reps guideReps const x xRecon i =
      const.getD i 0 * distRow (x.getD i []) (xRecon.getD i []) +
        advLossRow layers reps guideReps i ∧
    (loss_function layers reps guideReps const x xRecon).1 =
      (((∑ j ∈ Finset.range x.length,
          totalLossRow layers reps guideReps const x xRecon j) /
        x.length : ℚ) : ℝ) ∧
    (loss_function layers reps guideReps const x xRecon).2.getD i 0 =
      Real.sqrt ((distRow (x.getD i []) (xRecon.getD i []) : ℚ) : ℝ) := by
  refine ⟨?_, ?_, rfl, ?_, ?_⟩
  · rw [advLossRow, listMean, List.length_map,
      sum_map_getD default
        (fun l => advLossEntry ((reps l).getD i []) ((guideReps l).getD i []))
        layers]
    congr 1
    refine Finset.sum_congr rfl (fun li hli => ?_)
    have hmem : layers.getD li default ∈ layers := by
      rw [List.getD_eq_getElem layers default
        (by simpa using Finset.mem_range.mp hli)]
      exact List.getElem_mem _
    set l := layers.getD li default with hl
    rw [advLossEntry,
      sum_map_getD [] (fun g => sqDistSum ((reps l).getD i []) g) _,
      hm l hmem]
    refine Finset.sum_congr rfl (fun g hgr => ?_)
    have hglen : (((guideReps l).getD i []).getD g []).length =
        ((reps l).getD i []).length := by
      refine hg l hmem _ ?_
      have hgl : g < ((guideReps l).getD i []).length := by
        rw [hm l hmem]; exact Finset.mem_range.mp hgr
      rw [List.getD_eq_getElem _ [] hgl]
      exact List.getElem_mem _
    rw [sqDistSum, sum_zipWith _ _ _ hglen]
  · rw [distRow, listMean_zipWith hingeSq _ _ D hD hDr]
    rfl
  · rw [loss_function, listMean_map_range]
  · rw [loss_function]
    have hlen : i < ((List.range x.length).map
        (fun j => Real.sqrt
          ((distRow (x.getD j []) (xRecon.getD j []) : ℚ) : ℝ))).length := by
      simpa using hi
    rw [List.getD_eq_getElem _ 0 hlen, List.getElem_map,
      List.getElem_range]

/-- Witness for `c2_loss_function` at a concrete one-sample, one-layer,
one-guide instance. -/
theorem c2_loss_function_witness :
    ((0 : ℕ) < 1 ∧ ([[(0 : ℚ), 0]].getD 0 []).length = 2 ∧
      (∀ l ∈ [(0 : ℕ)],
        (((fun _ => [[[(0 : ℚ), 0]]]) l).getD 0 []).length = 1) ∧
      (∀ l ∈ [(0 : ℕ)], ∀ g ∈ ((fun _ => [[[(0 : ℚ), 0]]]) l).getD 0 [],
        g.length =
          (((fun _ => [[(1 : ℚ), 2]]) l).getD 0 []).length)) ∧
    (advLossRow [(0 : ℕ)] (fun _ => [[(1 : ℚ), 2]])
        (fun _ => [[[(0 : ℚ), 0]]]) 0 =
      (∑ li ∈ Finset.range ([(0 : ℕ)]).length, ∑ g ∈ Finset.range 1,
        ∑ f ∈ Finset.range
            ((((fun _ => [[(1 : ℚ), 2]]) (([(0 : ℕ)]).getD li
              default)).getD 0 []).length),
          ((((fun _ => [[(1 : ℚ), 2]]) (([(0 : ℕ)]).getD li
              default)).getD 0 []).getD f 0 -
            ((((fun _ => [[[(0 : ℚ), 0]]]) (([(0 : ℕ)]).getD li
              default)).getD 0 []).getD g []).getD f 0) ^ 2) /
        ([(0 : ℕ)]).length ∧
      distRow ([[(0 : ℚ), 0]].getD 0 []) ([[(0 : ℚ), 0]].getD 0 []) =
        (∑ f ∈ Finset.range 2,
          (max 0 (|([[(0 : ℚ), 0]].getD 0 []).getD f 0 -
            ([[(0 : ℚ), 0]].getD 0 []).getD f 0| - 0.1)) ^ 2) / 2 ∧
      totalLossRow [(0 : ℕ)] (fun _ => [[(1 : ℚ), 2]])
          (fun _ => [[[(0 : ℚ), 0]]]) [(2 : ℚ)] [[(0 : ℚ), 0]]
          [[(0 : ℚ), 0]] 0 =
        [(2 : ℚ)].getD 0 0 *
            distRow ([[(0 : ℚ), 0]].getD 0 []) ([[(0 : ℚ), 0]].getD 0 []) +
          advLossRow [(0 : ℕ)] (fun _ => [[(1 : ℚ), 2]])
            (fun _ => [[[(0 : ℚ), 0]]]) 0 ∧
      (loss_function [(0 : ℕ)] (fun _ => [[(1 : ℚ), 2]])
          (fun _ => [[[(0 : ℚ), 0]]]) [(2 : ℚ)] [[(0 : ℚ), 0]]
          [[(0 : ℚ), 0]]).1 =
        (((∑ j ∈ Finset.range ([[(0 : ℚ), 0]]).length,
            totalLossRow [(0 : ℕ)] (fun _ => [[(1 : ℚ), 2]])
              (fun _ => [[[(0 : ℚ), 0]]]) [(2 : ℚ)] [[(0 : ℚ), 0]]
              [[(0 : ℚ), 0]] j) / ([[(0 : ℚ), 0]]).length : ℚ) : ℝ) ∧
      (loss_function [(0 : ℕ)] (fun _ => [[(1 : ℚ), 2]])
          (fun _ => [[[(0 : ℚ), 0]]]) [(2 : ℚ)] [[(0 : ℚ), 0]]
          [[(0 : ℚ), 0]]).2.getD 0 0 =
        Real.sqrt ((distRow ([[(0 : ℚ), 0]].getD 0 [])
          ([[(0 : ℚ), 0]].getD 0 []) : ℚ) : ℝ)) :=
  ⟨⟨by norm_num, by norm_num,
    by intro l hl; norm_num,
    by intro l hl g hgm; fin_cases hgm; norm_num⟩,
   c2_loss_function [(0 : ℕ)] (fun _ => [[(1 : ℚ), 2]])
     (fun _ => [[[(0 : ℚ), 0]]]) [(2 : ℚ)] [[(0 : ℚ), 0]] [[(0 : ℚ), 0]]
     0 1 2 (by norm_num) (by norm_num) (by norm_num)
     (by intro l hl; norm_num)
     (by intro l hl g hgm; fin_cases hgm; norm_num)⟩

/-! ## Attack-space reparameterization (C3)

`to_attack_space` / `to_model_space` (lines 83-108) and
`DKNNLinfAttack.atanh` (lines 293-295).  The code applies the same formulas
elementwise; `mn`/`mx` are the per-feature `min_`/`max_` scalars, which are
the batch min/max optionally tightened to
`[x_orig - max_linf, x_orig + max_linf]` (lines 73-76). -/

/-- `DKNNLinfAttack.atanh` (lines 293-295): `0.5 * log((1 + x) / (1 - x))`. -/
noncomputable def atanh (x : ℝ) : ℝ := 0.5 * Real.log ((1 + x) / (1 - x))

/-- `to_attack_space` (lines 83-93): affine map of `[min_, max_]` onto
`[-1, 1]`, the `0.999999` contraction, then the inverse tanh. -/
noncomputable def to_attack_space (mn mx x : ℝ) : ℝ :=
  atanh ((x - (mn + mx) / 2) / ((mx - mn) / 2) * 0.999999)

/-- `to_model_space` (lines 95-108): `tanh`, then the affine map of
`(-1, 1)` back into `(min_, max_)`. -/
noncomputable def to_model_space (mn mx z : ℝ) : ℝ :=
  Real.tanh z * ((mx - mn) / 2) + (mn + mx) / 2

lemma tanh_eq_exp (t : ℝ) :
    Real.tanh t =
      (Real.exp t - Real.exp (-t)) / (Real.exp t + Real.exp (-t)) := by
  rw [Real.tanh_eq_sinh_div_cosh, Real.sinh_eq, Real.cosh_eq]
  have h : (0 : ℝ) < Real.exp t + Real.exp (-t) := by positivity
  field_simp

lemma tanh_mem_Ioo (t : ℝ) : -1 < Real.tanh t ∧ Real.tanh t < 1 := by
  have he := Real.exp_pos t
  have he' := Real.exp_pos (-t)
  have hd : (0 : ℝ) < Real.exp t + Real.exp (-t) := by positivity
  rw [tanh_eq_exp]
  constructor
  · rw [lt_div_iff₀ hd]
    linarith
  · rw [div_lt_one hd]
    linarith

lemma tanh_atanh {y : ℝ} (h1 : -1 < y) (h2 : y < 1) :
    Real.tanh (atanh y) = y := by
  have hy1 : (0 : ℝ) < 1 - y := by linarith
  have hy2 : (0 : ℝ) < 1 + y := by linarith
  have hu : (0 : ℝ) < (1 + y) / (1 - y) := by positivity
  rw [tanh_eq_exp, atanh]
  set t := 0.5 * Real.log ((1 + y) / (1 - y)) with ht
  have hE2 : Real.exp t * Real.exp t = (1 + y) / (1 - y) := by
    rw [← Real.exp_add]
    have harg : t + t = Real.log ((1 + y) / (1 - y)) := by rw [ht]; ring
    rw [harg, Real.exp_log hu]
  have hEpos := Real.exp_pos t
  have hd : (0 : ℝ) < Real.exp t + Real.exp (-t) := by positivity
  rw [div_eq_iff hd.ne', Real.exp_neg]
  field_simp
  rw [hE2]
  field_simp
  ring

/-- **C3.**  Reparameterization round trip.  For `x` strictly inside
`(min_, max_)`, `to_model_space (to_attack_space x)` equals `x` up to the
`0.999999` contraction toward the box center — exactly
`a + 0.999999 * (x - a)` for `a` the center — so the round-trip error is at
most `(max_ - min_)/2 * 1e-6` (below the claim's `1e-4` tolerance whenever
the box is narrower than 200); every `to_model_space` output lies in
`[min_, max_]` for an arbitrary attack-space input; and when the bounds are
tightened by an `max_linf = ε` ball around `x_orig = x0`
(`min_ ≥ x0 - ε`, `max_ ≤ x0 + ε`), every candidate the inner optimizer can
produce lies within that L-infinity ball. -/
theorem c3_reparameterization (mn mx x z x0 ε : ℝ)
    (hmm : mn < mx) (hx1 : mn < x) (hx2 : x < mx)
    (hε1 : x0 - ε ≤ mn) (hε2 : mx ≤ x0 + ε) :
    to_model_space mn mx (to_attack_space mn mx x) =
      (mn + mx) / 2 + 0.999999 * (x - (mn + mx) / 2) ∧
    |to_model_space mn mx (to_attack_space mn mx x) - x| ≤
      (mx - mn) / 2 * (1 - 0.999999) ∧
    (mn ≤ to_model_space mn mx z ∧ to_model_space mn mx z ≤ mx) ∧
    |to_model_space mn mx z - x0| ≤ ε := by
  have hb : (0 : ℝ) < (mx - mn) / 2 := by linarith
  have hwa : -1 < (x - (mn + mx) / 2) / ((mx - mn) / 2) := by
    rw [lt_div_iff₀ hb]
    linarith
  have hwb : (x - (mn + mx) / 2) / ((mx - mn) / 2) < 1 := by
    rw [div_lt_one hb]
    linarith
  have hya : -1 < (x - (mn + mx) / 2) / ((mx - mn) / 2) * 0.999999 := by
    nlinarith
  have hyb : (x - (mn + mx) / 2) / ((mx - mn) / 2) * 0.999999 < 1 := by
    nlinarith
  have hround : to_model_space mn mx (to_attack_space mn mx x) =
      (mn + mx) / 2 + 0.999999 * (x - (mn + mx) / 2) := by
    rw [to_model_space, to_attack_space, tanh_atanh hya hyb,
      mul_comm ((x - (mn + mx) / 2) / ((mx - mn) / 2)) (0.999999 : ℝ),
      mul_assoc, div_mul_cancel₀ _ hb.ne']
    ring
  have htz := tanh_mem_Ioo z
  have hzlo : mn ≤ to_model_space mn mx z := by
    rw [to_model_space]
    nlinarith [htz.1, htz.2]
  have hzhi : to_model_space mn mx z ≤ mx := by
    rw [to_model_space]
    nlinarith [htz.1, htz.2]
  refine ⟨hround, ?_, ⟨hzlo, hzhi⟩, ?_⟩
  · rw [hround]
    have habs : |(mn + mx) / 2 + 0.999999 * (x - (mn + mx) / 2) - x| =
        (1 - 0.999999) * |(mn + mx) / 2 - x| := by
      rw [show (mn + mx) / 2 + 0.999999 * (x - (mn + mx) / 2) - x =
          (1 - 0.999999) * ((mn + mx) / 2 - x) by ring, abs_mul,
        abs_of_pos (by norm_num : (0 : ℝ) < 1 - 0.999999)]
    rw [habs]
    have hxa : |(mn + mx) / 2 - x| ≤ (mx - mn) / 2 :=
      (abs_le.mpr ⟨by linarith, by linarith⟩)
    nlinarith
  · exact abs_le.mpr ⟨by linarith, by linarith⟩

/-- Witness for `c3_reparameterization` on the unit box with `x = 1/2`,
an arbitrary attack-space point `z = 3`, and the L-infinity ball of radius
`1/2` around `x0 = 1/2`. -/
theorem c3_reparameterization_witness :
    ((0 : ℝ) < 1 ∧ (0 : ℝ) < 1 / 2 ∧ (1 / 2 : ℝ) < 1 ∧
      (1 / 2 : ℝ) - 1 / 2 ≤ 0 ∧ (1 : ℝ) ≤ 1 / 2 + 1 / 2) ∧
    (to_model_space 0 1 (to_attack_space 0 1 (1 / 2)) =
        (0 + 1) / 2 + 0.999999 * (1 / 2 - (0 + 1) / 2) ∧
      |to_model_space 0 1 (to_attack_space 0 1 (1 / 2)) - 1 / 2| ≤
        (1 - 0) / 2 * (1 - 0.999999) ∧
      ((0 : ℝ) ≤ to_model_space 0 1 3 ∧ to_model_space 0 1 3 ≤ 1) ∧
      |to_model_space 0 1 3 - 1 / 2| ≤ 1 / 2) :=
  ⟨⟨by norm_num, by norm_num, by norm_num, by norm_num, by norm_num⟩,
   c3_reparameterization 0 1 (1 / 2) 3 (1 / 2) (1 / 2) (by norm_num)
     (by norm_num) (by norm_num) (by norm_num) (by norm_num)⟩

/-! ## Fail-fast on an invalid `guide_mode` (C7)

Event-trace model of the prefix of `__call__` (lines 73-130): the local
computations performed before the `guide_mode` dispatch, the dispatch itself
(`raise ValueError` for an unrecognized mode, line 130), and — for the valid
modes — the first oracle activity that follows.  Whatever happens after the
first oracle calls is irrelevant to the claim and is not modeled. -/

/-- Observable events at the start of `__call__`. -/
inductive AttackEv where
  | minMax
  | cloneAdv
  | labelToNumpy
  | inputShape
  | readDevice
  | reparamOrig
  | reparamRecon
  | initConstBounds
  | oracleNeighbors
  | oracleNNDiffClass
  | oracleActivations
  | oracleClassify
deriving DecidableEq

/-- The oracle queries named by the claim (`get_neighbors`,
`find_nn_diff_class`, `get_activations`, `classify`). -/
def isOracleCall : AttackEv → Bool
  | .oracleNeighbors | .oracleNNDiffClass | .oracleActivations
  | .oracleClassify => true
  | _ => false

/-- Local computations on the batch (everything except the pure attribute
read of `dknn.device`). -/
def isComputation : AttackEv → Bool
  | .minMax | .cloneAdv | .labelToNumpy | .inputShape | .reparamOrig
  | .reparamRecon | .initConstBounds => true
  | _ => false

/-- Lines 73-118 in source order: the batch min/max (with the optional
`max_linf` tightening), `x_adv = x_orig.clone()`, the label conversion, the
shape read, the device read, `z_orig = to_attack_space(x_orig)`,
`x_recon = to_model_space(z_orig)`, and the `const`/bound initialization.
All of it runs before the `guide_mode` dispatch at lines 123-130. -/
def preCheckEvents : List AttackEv :=
  [.minMax, .cloneAdv, .labelToNumpy, .inputShape, .readDevice,
   .reparamOrig, .reparamRecon, .initConstBounds]

/-- The prefix of `__call__`: the events emitted up to (and including) the
first oracle activity, and `some message` when the call raises.  Modes 1 and
2 continue into guide selection; any other mode raises `ValueError`. -/
def attackCallStart (guideMode : ℤ) : List AttackEv × Option String :=
  if guideMode = 1 then
    (preCheckEvents ++ [.oracleNeighbors, .oracleActivations], none)
  else if guideMode = 2 then
    (preCheckEvents ++ [.oracleNNDiffClass, .oracleNeighbors,
      .oracleActivations], none)
  else
    (preCheckEvents, some "Invalid guide_mode (choose between 1 and 2)")

/-- **C7 counterexample.**  Calling with `guide_mode = 3` does raise
`ValueError`, but *not* "before any computation begins": the batch
reparameterization (`z_orig`, `x_recon`), the clone, the label conversion
and the search-state initialization all run before the check, so the list of
computations performed before the raise is nonempty. -/
theorem c7_counterexample :
    (attackCallStart 3).2 =
        some "Invalid guide_mode (choose between 1 and 2)" ∧
    AttackEv.reparamOrig ∈ (attackCallStart 3).1 ∧
    (attackCallStart 3).1.filter isComputation ≠ [] := by
  refine ⟨rfl, ?_, ?_⟩ <;> decide

/-- **C7 (amended).**  Calling the attack with a `guide_mode` other than 1 or
2 raises `ValueError` before any oracle query occurs (zero calls to
`classify`, `get_activations`, `get_neighbors`, or `find_nn_diff_class`),
and with no externally observable side effect; however the batch
reparameterization and the search-state initialization (local, discarded
work) do run before the check. -/
theorem c7_invalid_mode_amended (gm : ℤ) (h1 : gm ≠ 1) (h2 : gm ≠ 2) :
    (attackCallStart gm).2 =
        some "Invalid guide_mode (choose between 1 and 2)" ∧
    (attackCallStart gm).1.all (fun e => !isOracleCall e) = true := by
  rw [attackCallStart, if_neg h1, if_neg h2]
  exact ⟨rfl, by decide⟩

/-- Witness for `c7_invalid_mode_amended` at `guide_mode = 3`. -/
theorem c7_invalid_mode_amended_witness :
    ((3 : ℤ) ≠ 1 ∧ (3 : ℤ) ≠ 2) ∧
    ((attackCallStart 3).2 =
        some "Invalid guide_mode (choose between 1 and 2)" ∧
      (attackCallStart 3).1.all (fun e => !isOracleCall e) = true) :=
  ⟨⟨by decide, by decide⟩,
   c7_invalid_mode_amended 3 (by decide) (by decide)⟩

/-! ## Frame property of the attack call (C10)

A small heap model of the mutation structure of `__call__`: batch tensors
live at references, `x_adv = x_orig.clone()` allocates a fresh reference
(line 78), and the only heap writes the loop performs are
`x_adv[i] = x[i]` (line 193) on that fresh reference.  `x_orig`, the label
tensor and the oracle's `x_train`/`y_train` are pre-existing references the
call only reads (the scalar search state is thread-local and holds no caller
data, cf. `bsRun`). -/

/-- A heap of batch tensors: contents by reference plus the allocation
counter; references `≥ next` are unallocated. -/
structure Heap where
  mem : ℕ → Option (List (List ℚ))
  next : ℕ

/-- Allocate a fresh reference holding `v` (e.g. `x_orig.clone()`). -/
def halloc (h : Heap) (v : List (List ℚ)) : Heap × ℕ :=
  ({ mem := fun r => if r = h.next then some v else h.mem r,
     next := h.next + 1 }, h.next)

/-- In-place update of row `i` of the tensor at reference `r`
(`t[i] = row`). -/
def hwriteRow (h : Heap) (r i : ℕ) (row : List ℚ) : Heap :=
  { h with mem := fun s =>
      if s = r then some (((h.mem r).getD []).set i row) else h.mem s }

/-- One binary-search round's buffer writes (lines 186-193): for each sample
`i` of the batch, when the round's candidate satisfies the perturbation
constraint (`l2dist[i] ≤ 0`) and the success check, write candidate row `i`
into the buffer at `adv`. -/
def roundWrites (adv batch : ℕ) (h : Heap)
    (rd : List ℚ × List Bool × List (List ℚ)) : Heap :=
  (List.range batch).foldl
    (fun hh i =>
      if ¬ 0 < rd.1.getD i 0 ∧ rd.2.1.getD i false = true then
        hwriteRow hh adv i (rd.2.2.getD i [])
      else hh) h

/-- The mutation skeleton of `__call__` (lines 78 and 145-211): clone the
original batch into a fresh buffer, perform every round's per-sample writes
on it, and return the final heap together with the buffer's reference
(line 211's `return x_adv`). -/
def attackHeapRun (h0 : Heap) (xOrigRef : ℕ)
    (rounds : List (List ℚ × List Bool × List (List ℚ))) : Heap × ℕ :=
  let av := halloc h0 ((h0.mem xOrigRef).getD [])
  (rounds.foldl
    (roundWrites av.2 ((h0.mem xOrigRef).getD []).length) av.1, av.2)

lemma hwriteRow_mem_ne (h : Heap) (r i : ℕ) (row : List ℚ) (s : ℕ)
    (hs : s ≠ r) : (hwriteRow h r i row).mem s = h.mem s := by
  simp [hwriteRow, hs]

lemma roundWrites_mem_ne (adv batch : ℕ) (rd : List ℚ × List Bool ×
    List (List ℚ)) (s : ℕ) (hs : s ≠ adv) :
    ∀ h : Heap, (roundWrites adv batch h rd).mem s = h.mem s := by
  unfold roundWrites
  generalize List.range batch = l
  induction l with
  | nil => intro h; rfl
  | cons a t ih =>
    intro h
    rw [List.foldl_cons, ih]
    split_ifs with hc
    · exact hwriteRow_mem_ne h adv a _ s hs
    · rfl

lemma foldl_roundWrites_mem_ne (adv batch : ℕ)
    (rounds : List (List ℚ × List Bool × List (List ℚ))) (s : ℕ)
    (hs : s ≠ adv) :
    ∀ h : Heap,
      (rounds.foldl (roundWrites adv batch) h).mem s = h.mem s := by
  induction rounds with
  | nil => intro h; rfl
  | cons rd t ih =>
    intro h
    rw [List.foldl_cons, ih, roundWrites_mem_ne adv batch rd s hs]

/-- **C10.**  The attack call never mutates its inputs or the oracle's data:
every reference allocated before the call — `x_orig`, the label tensor,
`x_train`, `y_train` — holds the same value afterwards; the returned buffer
is the fresh allocation made by `x_orig.clone()` (in particular not an alias
of the caller's batch), and with no rounds it still holds exactly the cloned
original values. -/
theorem c10_no_input_mutation (h0 : Heap) (xOrigRef : ℕ)
    (rounds : List (List ℚ × List Bool × List (List ℚ)))
    (href : xOrigRef < h0.next) :
    (∀ r < h0.next,
      (attackHeapRun h0 xOrigRef rounds).1.mem r = h0.mem r) ∧
    (attackHeapRun h0 xOrigRef rounds).2 = h0.next ∧
    (attackHeapRun h0 xOrigRef rounds).2 ≠ xOrigRef ∧
    (attackHeapRun h0 xOrigRef []).1.mem (attackHeapRun h0 xOrigRef []).2 =
      some ((h0.mem xOrigRef).getD []) := by
  refine ⟨?_, rfl, by simpa using Nat.ne_of_gt href, by simp [attackHeapRun, halloc]⟩
  intro r hr
  have hne : r ≠ h0.next := by omega
  have hfold := foldl_roundWrites_mem_ne h0.next
    ((h0.mem xOrigRef).getD []).length rounds r hne
    (halloc h0 ((h0.mem xOrigRef).getD [])).1
  calc (attackHeapRun h0 xOrigRef rounds).1.mem r
      = (halloc h0 ((h0.mem xOrigRef).getD [])).1.mem r := hfold
    _ = h0.mem r := by simp [halloc, hne]

/-- Witness for `c10_no_input_mutation` on a one-tensor heap and one round
that overwrites the buffer's row 0. -/
theorem c10_no_input_mutation_witness :
    (0 : ℕ) <
      (⟨fun r => if r = 0 then some [[1], [2]] else none, 1⟩ : Heap).next ∧
    ((∀ r < (⟨fun r => if r = 0 then some [[1], [2]] else none,
          1⟩ : Heap).next,
        (attackHeapRun ⟨fun r => if r = 0 then some [[1], [2]] else none, 1⟩
            0 [([0], [true], [[5]])]).1.mem r =
          (⟨fun r => if r = 0 then some [[1], [2]] else none,
            1⟩ : Heap).mem r) ∧
      (attackHeapRun ⟨fun r => if r = 0 then some [[1], [2]] else none, 1⟩
          0 [([0], [true], [[5]])]).2 =
        (⟨fun r => if r = 0 then some [[1], [2]] else none,
          1⟩ : Heap).next ∧
      (attackHeapRun ⟨fun r => if r = 0 then some [[1], [2]] else none, 1⟩
          0 [([0], [true], [[5]])]).2 ≠ 0 ∧
      (attackHeapRun ⟨fun r => if r = 0 then some [[1], [2]] else none, 1⟩
          0 []).1.mem
          (attackHeapRun ⟨fun r => if r = 0 then some [[1], [2]] else none,
            1⟩ 0 []).2 =
        some (((⟨fun r => if r = 0 then some [[1], [2]] else none,
          1⟩ : Heap).mem 0).getD [])) :=
  ⟨by norm_num,
   c10_no_input_mutation
     ⟨fun r => if r = 0 then some [[1], [2]] else none, 1⟩ 0
     [([0], [true], [[5]])] (by norm_num)⟩

end DknnLinf
